import Mathlib

/-!
Verification of the data-join and choropleth pipeline of the
country-comparison application (`src/App.jsx`).

The JavaScript source is shallowly embedded:

* JS `Map` objects become association lists with `mset` (insert-or-overwrite,
  keeping the original insertion position, exactly like `Map.set`) and `mget`
  (`Map.get`); `new Map(entries)` becomes `mofList` (later entries overwrite
  earlier ones, like the JS constructor).
* JS `Set` objects become duplicate-free lists in first-insertion order
  (`setAdd` / `setOfList`).
* JS numbers are embedded as `ℚ` (every value the pipeline manipulates is a
  finite double; `Number.isFinite` guards are therefore always true and the
  NaN/Infinity branches are unreachable in the embedding).
* JS objects keyed by year become association lists keyed by `Int`.
* `String.prototype.toUpperCase` becomes `jsUpper` (ASCII case mapping; the
  ISO codes and property values the application upcases are ASCII).
* `Number(x)` coercion of strings is embedded for unsigned decimal integer
  literals (the shape the World Bank API serialises values in); any other
  string coerces to NaN, i.e. `none`.
-/

namespace CC

/-- ASCII upper-casing of one character, the embedding of what
`toUpperCase` does on the code points the application feeds it. -/
def jsCharUpper (c : Char) : Char :=
  if 97 ≤ c.toNat ∧ c.toNat ≤ 122 then Char.ofNat (c.toNat - 32) else c

/-- Embedding of `String.prototype.toUpperCase` (ASCII range). -/
def jsUpper (s : String) : String :=
  String.mk (s.data.map jsCharUpper)

/-- Accumulating decimal-digit parser: `some` of the value when every
character is a digit, `none` otherwise. -/
def digitsToNat (acc : Nat) : List Char → Option Nat
  | [] => some acc
  | c :: cs => if c.isDigit then digitsToNat (10 * acc + (c.toNat - 48)) cs else none

/-- Embedding of JS `Number(s)` on strings: `""` coerces to `0`, an unsigned
decimal integer literal to its value, anything else to NaN (`none`). -/
def jsStringToNumber (s : String) : Option ℚ :=
  match s.data with
  | [] => some 0
  | l => (digitsToNat 0 l).map (fun n => (n : ℚ))

/-- A JS value as the indicator rows carry it: `null`/`undefined`, a string,
or a (finite) number. -/
inductive JsVal where
  | null : JsVal
  | str : String → JsVal
  | num : ℚ → JsVal
deriving DecidableEq

/-- Fused embedding of the observation-value handling in `fetchIndicator`:
`valueRaw == null || Number.isNaN(Number(valueRaw))` skips the row (`none`),
otherwise the kept value is `typeof valueRaw === "string" ? Number(valueRaw)
: valueRaw`, i.e. the coerced number (`some`). -/
def coerceValue : JsVal → Option ℚ
  | .null => none
  | .str s => jsStringToNumber s
  | .num q => some q

/-- Embedding of `Map.get`: the association lists built below keep at most
one entry per key, and `mget` returns that entry's value. -/
def mget {κ α : Type} [DecidableEq κ] (m : List (κ × α)) (k : κ) : Option α :=
  match m with
  | [] => none
  | (k', v) :: rest => if k = k' then some v else mget rest k

/-- Embedding of `Map.set`: overwrite in place when the key is present,
append otherwise (JS `Map` keeps the original insertion position). -/
def mset {κ α : Type} [DecidableEq κ] : List (κ × α) → κ → α → List (κ × α)
  | [], k, v => [(k, v)]
  | (k', v') :: rest, k, v =>
    if k = k' then (k', v) :: rest else (k', v') :: mset rest k v

/-- Key list of a map, in insertion order (JS `Map.keys()`). -/
def keys {κ α : Type} (m : List (κ × α)) : List κ :=
  m.map Prod.fst

/-- Embedding of `new Map(entries)`: insert every entry in order, later
entries overwriting earlier ones with the same key. -/
def mofList {κ α : Type} [DecidableEq κ] (l : List (κ × α)) : List (κ × α) :=
  l.foldl (fun m p => mset m p.1 p.2) []

/-- Embedding of `Set.add`: append the element unless already present. -/
def setAdd (s : List String) (x : String) : List String :=
  if x ∈ s then s else s ++ [x]

/-- Embedding of `new Set(l)` (plus subsequent `add` calls): duplicate-free
list in first-insertion order. -/
def setOfList (l : List String) : List String :=
  l.foldl setAdd []

/-- First-`some` choice, the shape of the `??`-style fallbacks the merge
uses on `Map.get` results. -/
def oOr {α : Type} : Option α → Option α → Option α
  | some v, _ => some v
  | none, b => b

/-- One observation row as the World Bank indicator endpoint returns it.
The source reads `parseInt(row.date, 10)`; the embedding carries the parsed
year directly as `date`. -/
structure Obs where
  countryiso3code : String
  value : JsVal
  date : Int
deriving DecidableEq

/-- A country's entry in the "latest" map: `{ value, year }`. -/
structure LatestEntry where
  value : ℚ
  year : Int
deriving DecidableEq

/-- The two structures `fetchIndicator` builds: the per-country latest map
and the per-country per-year series map. -/
structure Bundle where
  latest : List (String × LatestEntry)
  series : List (String × List (Int × ℚ))
deriving DecidableEq

/-- Loop body of `fetchIndicator` for one observation row: skip rows whose
value is nullish or not numeric after coercion, record the value in the
series map only when the year is not yet present, and replace the latest
entry only when the year is strictly greater. -/
def stepObs (acc : Bundle) (row : Obs) : Bundle :=
  let iso := jsUpper row.countryiso3code
  match coerceValue row.value with
  | none => acc
  | some value =>
    let year := row.date
    let s0 := (mget acc.series iso).getD []
    let s1 := match mget s0 year with
      | some _ => s0
      | none => mset s0 year value
    let newSeries := mset acc.series iso s1
    let newLatest :=
      match mget acc.latest iso with
      | none => mset acc.latest iso ⟨value, year⟩
      | some prev => if prev.year < year then mset acc.latest iso ⟨value, year⟩ else acc.latest
    { latest := newLatest, series := newSeries }

/-- Embedding of `fetchIndicator` (after the network layer): rows without a
`countryiso3code` are filtered out, then the loop reduces the rows into a
latest map and a series map. -/
def fetchIndicator (rows : List Obs) : Bundle :=
  (rows.filter (fun r => !(r.countryiso3code == ""))).foldl stepObs ⟨[], []⟩

/-- Reference view used to state the claim about `fetchIndicator`: the
observations for one country that survive the code filter and the value
coercion, as (year, value) pairs in arrival order. -/
def goodObs (rows : List Obs) (iso : String) : List (Int × ℚ) :=
  rows.filterMap (fun r =>
    if r.countryiso3code ≠ "" ∧ jsUpper r.countryiso3code = iso then
      (coerceValue r.value).map (fun v => (r.date, v))
    else none)

/-- Greatest year among a list of (year, value) pairs. -/
def maxYear : List (Int × ℚ) → Option Int
  | [] => none
  | p :: l =>
    some (match maxYear l with
      | none => p.1
      | some m => max p.1 m)

/-- Reference (non-operational) description of the latest map from the
claim: the observation whose year attains the maximum, the first such
observation winning ties. -/
def latestOfGood (l : List (Int × ℚ)) : Option LatestEntry :=
  (maxYear l).bind (fun m => (l.find? (fun p => p.1 == m)).map (fun p => ⟨p.2, p.1⟩))

/-- One entry of a name source as the merge consumes it: the normalised
`{ iso3, iso2, country }` objects built from the World Bank country list
(`wbCountries`) and from the GeoJSON features (`geoCountries`). -/
structure SrcCountry where
  iso3 : String
  iso2 : Option String
  country : String
deriving DecidableEq

/-- One merged row. The dynamic JS row object is embedded with its metric
fields as functions from field name: `metricLatest` is `row[metric.field]`,
`metricYear` is `row.__years[field]` and `metricSeries` is
`row.__series[field]`. -/
@[ext]
structure CountryRecord where
  iso3 : String
  iso2 : Option String
  country : String
  metricLatest : String → Option ℚ
  metricYear : String → Option Int
  metricSeries : String → Option (List (Int × ℚ))

/-- JS truthiness of an optional string (`undefined`, `null` and `""` are
falsy). -/
def strTruthy : Option String → Bool
  | some s => !(s == "")
  | none => false

/-- Embedding of `a || b || null` over optional strings. -/
def jsOr2 (a b : Option String) : Option String :=
  if strTruthy a then a else if strTruthy b then b else none

/-- Body of the `METRICS.forEach` loop building one row: attach the metric's
latest value, its year, and its series when present for this country. -/
def attachOne (iso : String) (row : CountryRecord) (p : String × Bundle) : CountryRecord :=
  let field := p.1
  let b := p.2
  let row1 :=
    match mget b.latest iso with
    | some e =>
      { row with
        metricLatest := fun k => if k = field then some e.value else row.metricLatest k,
        metricYear := fun k => if k = field then some e.year else row.metricYear k }
    | none => row
  match mget b.series iso with
  | some s =>
    { row1 with metricSeries := fun k => if k = field then some s else row1.metricSeries k }
  | none => row1

/-- The `wbNameMap` / `geoNameMap` of `fetchLive`: `new Map` keyed by ISO-3
with the display name. -/
def nameMapOf (l : List SrcCountry) : List (String × String) :=
  mofList (l.map (fun c => (c.iso3, c.country)))

/-- The `wbIso2Map` of `fetchLive` (its values may be `null`). -/
def wbIso2MapOf (l : List SrcCountry) : List (String × Option String) :=
  mofList (l.map (fun c => (c.iso3, c.iso2)))

/-- The `geoIso2Map` of `fetchLive`: only countries with a truthy `iso2`. -/
def geoIso2MapOf (l : List SrcCountry) : List (String × Option String) :=
  mofList ((l.filter (fun c => strTruthy c.iso2)).map (fun c => (c.iso3, c.iso2)))

/-- The `allIso` set of `fetchLive`: both name maps' keys, then every
bundle's latest keys, added in order. -/
def allIsoOf (wbCountries geoCountries : List SrcCountry)
    (pairs : List (String × Bundle)) : List String :=
  setOfList (keys (nameMapOf wbCountries) ++ keys (nameMapOf geoCountries) ++
    (pairs.map (fun p => keys p.2.latest)).flatten)

/-- The `nameMap` of `fetchLive`: a copy of `geoNameMap` overwritten by
every `wbNameMap` entry. -/
def combinedNameMap (wbCountries geoCountries : List SrcCountry) : List (String × String) :=
  (nameMapOf wbCountries).foldl (fun m p => mset m p.1 p.2) (nameMapOf geoCountries)

/-- The row as first constructed for one ISO key, before the
`METRICS.forEach` loop attaches metric data. -/
def baseRow (wbCountries geoCountries : List SrcCountry) (iso : String) : CountryRecord :=
  { iso3 := iso
    iso2 := jsOr2 ((mget (wbIso2MapOf wbCountries) iso).join)
      ((mget (geoIso2MapOf geoCountries) iso).join)
    country :=
      match mget (combinedNameMap wbCountries geoCountries) iso with
      | some s => if s = "" then iso else s
      | none => iso
    metricLatest := fun _ => none
    metricYear := fun _ => none
    metricSeries := fun _ => none }

/-- One finished row of the merge. -/
def rowFor (wbCountries geoCountries : List SrcCountry)
    (pairs : List (String × Bundle)) (iso : String) : CountryRecord :=
  pairs.foldl (attachOne iso) (baseRow wbCountries geoCountries iso)

/-- The ISO keys that survive the name-source filter, in order. -/
def mergeKeys (wbCountries geoCountries : List SrcCountry)
    (pairs : List (String × Bundle)) : List String :=
  (allIsoOf wbCountries geoCountries pairs).filter (fun iso =>
    (mget (nameMapOf wbCountries) iso).isSome || (mget (nameMapOf geoCountries) iso).isSome)

/-- Embedding of the merge step of `fetchLive` (lines 1061-1092): build the
name and iso2 maps from both sources, union the ISO key sets with every
bundle's latest keys, keep the keys present in a name source, and build one
row per surviving key.  `pairs` carries each metric's field name with its
fetched bundle (`METRICS` and `bundles` are parallel arrays in the code). -/
def mergeRows (wbCountries geoCountries : List SrcCountry)
    (pairs : List (String × Bundle)) : List CountryRecord :=
  (mergeKeys wbCountries geoCountries pairs).map (rowFor wbCountries geoCountries pairs)

/-- Embedding of `Math.floor` on the exact rationals the pipeline computes. -/
def jsFloorQ (q : ℚ) : Int :=
  Int.fdiv q.num q.den

/-- Embedding of `Math.ceil`. -/
def jsCeilQ (q : ℚ) : Int :=
  -jsFloorQ (-q)

/-- Embedding of `Math.round` (round half towards positive infinity). -/
def jsRound (q : ℚ) : Int :=
  jsFloorQ (q + (1 : ℚ) / 2)

/-- Embedding of `whiteBlue`: map a clamped [0, 1] number to an `hsl`
string on the white-to-blue gradient.  The `Number.isFinite(t) ? t : 0`
guard is always the `t` branch in the ℚ embedding. -/
def whiteBlue (t : ℚ) : String :=
  let clamped := max 0 (min 1 t)
  let lightness := jsRound (98 - 40 * clamped)
  "hsl(210, 70%, " ++ toString lightness ++ "%)"

/-- Embedding of `whiteBluePalette`. -/
def whiteBluePalette (n : Nat) : List String :=
  (List.range n).map (fun index =>
    whiteBlue (if n = 1 then 1 else (index : ℚ) / ((n : ℚ) - 1)))

/-- The `valueStats` memo's result shape. -/
structure VStats where
  vals : List ℚ
  thresholds : List ℚ
  palette : List String
deriving DecidableEq

/-- The `quantile` closure of `valueStats`: linear interpolation between the
two bracketing order statistics of the ascending `values`. -/
def quantileOf (values : List ℚ) (p : ℚ) : ℚ :=
  let index := ((values.length : ℚ) - 1) * p
  let lo := jsFloorQ index
  let hi := jsCeilQ index
  if lo = hi then values.getD lo.toNat 0
  else
    let t := index - (lo : ℚ)
    values.getD lo.toNat 0 * (1 - t) + values.getD hi.toNat 0 * t

/-- Embedding of the `valueStats` memo: the active metric's numeric values
sorted ascending, the four quintile thresholds, and the five-color palette.
`metricValues` stands for `activeRows.map((row) => row[colorMetric])`; a
non-numeric or missing entry is `none`. -/
def valueStats (colorMetric : String) (metricValues : List (Option ℚ)) : VStats :=
  if colorMetric = "" then ⟨[], [], []⟩
  else
    let values := (metricValues.filterMap id).insertionSort (· ≤ ·)
    if values = [] then ⟨[], [], []⟩
    else
      ⟨values, [(0.2 : ℚ), 0.4, 0.6, 0.8].map (quantileOf values), whiteBluePalette 5⟩

/-- The `linearStats` memo's result shape. -/
structure LinearStats where
  min : ℚ
  max : ℚ
  hasVals : Bool
  range : ℚ
deriving DecidableEq

/-- Embedding of the `linearStats` memo. -/
def linearStats (colorMetric : String) (metricValues : List (Option ℚ)) : LinearStats :=
  if colorMetric = "" then ⟨0, 0, false, 0⟩
  else
    match metricValues.filterMap id with
    | [] => ⟨0, 0, false, 0⟩
    | v :: vs => ⟨vs.foldl min v, vs.foldl max v, true, vs.foldl max v - vs.foldl min v⟩

/-- The two color-scale modes. -/
inductive ScaleMode where
  | quantile : ScaleMode
  | linear : ScaleMode
deriving DecidableEq

/-- The `while (index < thresholds.length && value > thresholds[index])`
loop of `colorFor`: how many leading thresholds the value strictly exceeds
before the first one it does not. -/
def bucketIndex (thresholds : List ℚ) (value : ℚ) : Nat :=
  match thresholds with
  | [] => 0
  | t :: rest => if t < value then bucketIndex rest value + 1 else 0

/-- Embedding of `colorFor`: missing or non-numeric values (`none`) map to
`whiteBlue 0`; quantile mode indexes the palette by the bucket; linear mode
maps the value's gradient position through `whiteBlue`. -/
def colorFor (colorMetric : String) (mode : ScaleMode) (vs : VStats)
    (ls : LinearStats) (value : Option ℚ) : String :=
  if colorMetric = "" then whiteBlue 0
  else
    match value with
    | none => whiteBlue 0
    | some v =>
      match mode with
      | .quantile =>
        if vs.vals = [] then whiteBlue 0
        else vs.palette.getD (bucketIndex vs.thresholds v) (whiteBlue 0)
      | .linear =>
        if ls.hasVals = false ∨ ls.max = ls.min then whiteBlue 0
        else whiteBlue ((v - ls.min) / (ls.max - ls.min))

/-- The metric-value distribution on which the code's own
`console.assert(minColorQ !== maxColorQ)` self-test fails: two countries at
0 and nine at 1, so every quintile threshold lands on 1. -/
def skewedVals : List (Option ℚ) :=
  [some 0, some 0, some 1, some 1, some 1, some 1, some 1, some 1, some 1,
    some 1, some 1]

/-- Selection state: the two slots with their last-assignment timestamps
(`codeA`/`codeB` with `lastA`/`lastB`). -/
structure SelState where
  codeA : Option String
  codeB : Option String
  lastA : Int
  lastB : Int
deriving DecidableEq

/-- The initial selection state (`useState(null)` twice, `useState(0)`
twice). -/
def selInit : SelState :=
  ⟨none, none, 0, 0⟩

/-- JS truthiness test of a slot (`!codeA`): null or the empty string. -/
def isFalsyCode : Option String → Bool
  | none => true
  | some s => s == ""

/-- Embedding of `setSelection`: ignore falsy input, upper-case the code,
ignore an already-selected code, fill an empty slot, else overwrite the
slot whose timestamp is not later (`lastA <= lastB` evicts A). -/
def setSelection (s : SelState) (iso3 : String) (now : Int) : SelState :=
  if iso3 = "" then s
  else
    let iso := jsUpper iso3
    if s.codeA = some iso ∨ s.codeB = some iso then s
    else if isFalsyCode s.codeA ∧ isFalsyCode s.codeB then
      { s with codeA := some iso, lastA := now }
    else if isFalsyCode s.codeA then { s with codeA := some iso, lastA := now }
    else if isFalsyCode s.codeB then { s with codeB := some iso, lastB := now }
    else if s.lastA ≤ s.lastB then { s with codeA := some iso, lastA := now }
    else { s with codeB := some iso, lastB := now }

/-- Embedding of `swap`: exchange the slot occupants; the timestamps stay
with their slots. -/
def swapSel (s : SelState) : SelState :=
  { s with codeA := s.codeB, codeB := s.codeA }

/-- Embedding of `clear`: empty both slots. -/
def clearSel (s : SelState) : SelState :=
  { s with codeA := none, codeB := none }

/-- The `mapDragBounds` record `constrainDragPosition` destructures. -/
structure DragBounds where
  minX : ℚ
  minY : ℚ
  maxX : ℚ
  maxY : ℚ
  width : ℚ
  height : ℚ
deriving DecidableEq

/-- A requested position; `none` stands for a non-finite (or absent)
component, which `Number.isFinite` rejects. -/
structure DragPosition where
  x : Option ℚ
  y : Option ℚ
  zoom : Option ℚ
deriving DecidableEq

/-- The clamper's output (always finite). -/
structure ClampedPosition where
  x : ℚ
  y : ℚ
  zoom : ℚ
deriving DecidableEq

/-- Embedding of `clampNumber`. -/
def clampNumber (value lo hi : ℚ) : ℚ :=
  min (max value lo) hi

/-- Embedding of the `clampAxisValue` closure: center the content on an
axis the zoomed content does not exceed, otherwise clamp the requested
translation into the covering range, collapsing an inverted range to its
midpoint.  The `Number.isFinite` guards on the bounds are always true in
the ℚ embedding. -/
def clampAxisValue (safeZoom : ℚ) (current : Option ℚ)
    (minCoord maxCoord viewport contentSize : ℚ) : ℚ :=
  let scaledSize := contentSize * safeZoom
  if scaledSize ≤ viewport then
    viewport / 2 - safeZoom * ((minCoord + maxCoord) / 2)
  else
    let minT := viewport - safeZoom * maxCoord
    let maxT := -(safeZoom * minCoord)
    let minT2 := if maxT < minT then (minT + maxT) / 2 else minT
    let maxT2 := if maxT < minT then (minT + maxT) / 2 else maxT
    let base :=
      match current with
      | some c => c
      | none => clampNumber ((minT2 + maxT2) / 2) minT2 maxT2
    clampNumber base minT2 maxT2

/-- Embedding of `constrainDragPosition` (the projection and bounds memos
always produce an object, so the null-projection early return is dead
code). -/
def constrainDragPosition (zoomRefCurrent : ℚ) (b : DragBounds) (mapW mapH : ℚ)
    (p : DragPosition) : ClampedPosition :=
  let rawZoom := p.zoom.getD zoomRefCurrent
  let safeZoom := max 1 (min rawZoom 8)
  { x := clampAxisValue safeZoom p.x b.minX b.maxX mapW b.width
    y := clampAxisValue safeZoom p.y b.minY b.maxY mapH b.height
    zoom := safeZoom }

/-- A GeoJSON feature's property bag, restricted to the key variants the
extractors probe; `none` is an absent key. -/
structure GeoProps where
  ISO_A3 : Option String := none
  iso_a3 : Option String := none
  ISO_A3_EH : Option String := none
  iso_a3_eh : Option String := none
  ADM0_A3 : Option String := none
  adm0_a3 : Option String := none
  ISO3 : Option String := none
  iso3 : Option String := none
  ISO_A2 : Option String := none
  iso_a2 : Option String := none
  ISO_A2_EH : Option String := none
  iso_a2_eh : Option String := none
  WB_A2 : Option String := none
  wb_a2 : Option String := none
deriving DecidableEq

/-- The `??` chain of `getIso3`: the first present ISO-3 key variant
(`props?.` also guards a null bag). -/
def isoCandidate (props : Option GeoProps) : Option String :=
  match props with
  | none => none
  | some p =>
    oOr p.ISO_A3 (oOr p.iso_a3 (oOr p.ISO_A3_EH (oOr p.iso_a3_eh
      (oOr p.ADM0_A3 (oOr p.adm0_a3 (oOr p.ISO3 p.iso3))))))

/-- Embedding of `getIso3`: null when the candidate is missing, falsy, or
the `"-99"` sentinel, else the candidate upper-cased. -/
def getIso3 (props : Option GeoProps) : Option String :=
  match isoCandidate props with
  | none => none
  | some s => if s = "" ∨ s = "-99" then none else some (jsUpper s)

/-- The `??` chain of `getIso2`. -/
def iso2Candidate (props : Option GeoProps) : Option String :=
  match props with
  | none => none
  | some p =>
    oOr p.ISO_A2 (oOr p.iso_a2 (oOr p.ISO_A2_EH (oOr p.iso_a2_eh
      (oOr p.WB_A2 p.wb_a2))))

/-- Embedding of `getIso2`: like `getIso3` plus the exact-length-2 check on
the normalised value. -/
def getIso2 (props : Option GeoProps) : Option String :=
  match iso2Candidate props with
  | none => none
  | some s =>
    if s = "" ∨ s = "-99" then none
    else
      let normalized := jsUpper s
      if normalized.length = 2 then some normalized else none

theorem mget_mset {κ α : Type} [DecidableEq κ] (m : List (κ × α)) (k k' : κ) (v : α) :
    mget (mset m k v) k' = if k' = k then some v else mget m k' := by
  induction m with
  | nil =>
    by_cases h : k' = k <;> simp [mset, mget, h]
  | cons p rest ih =>
    obtain ⟨pk, pv⟩ := p
    by_cases hk : k = pk
    · subst hk
      by_cases h : k' = k <;> simp [mset, mget, h]
    · by_cases h : k' = pk
      · subst h
        have hne : ¬ k' = k := fun hh => hk hh.symm
        simp [mset, hk, mget, hne]
      · simp [mset, hk, mget, h, ih]

theorem mem_keys_mset {κ α : Type} [DecidableEq κ] (m : List (κ × α)) (k k' : κ) (v : α) :
    k' ∈ keys (mset m k v) ↔ k' ∈ keys m ∨ k' = k := by
  induction m with
  | nil => simp [mset, keys]
  | cons p rest ih =>
    obtain ⟨pk, pv⟩ := p
    by_cases hk : k = pk
    · subst hk
      simp [mset, keys]
      tauto
    · simp [mset, hk, keys] at ih ⊢
      tauto

theorem mget_isSome_iff_mem_keys {κ α : Type} [DecidableEq κ]
    (m : List (κ × α)) (k : κ) : (mget m k).isSome ↔ k ∈ keys m := by
  induction m with
  | nil => simp [mget, keys]
  | cons p rest ih =>
    obtain ⟨pk, pv⟩ := p
    by_cases h : k = pk <;> simp [mget, keys, h, ih]

theorem mget_eq_none_iff_not_mem_keys {κ α : Type} [DecidableEq κ]
    (m : List (κ × α)) (k : κ) : mget m k = none ↔ k ∉ keys m := by
  rw [← mget_isSome_iff_mem_keys]
  cases mget m k <;> simp

theorem keys_mset_of_mem {κ α : Type} [DecidableEq κ] (m : List (κ × α)) (k : κ) (v : α)
    (h : k ∈ keys m) : keys (mset m k v) = keys m := by
  induction m with
  | nil => simp [keys] at h
  | cons p rest ih =>
    obtain ⟨pk, pv⟩ := p
    by_cases hk : k = pk
    · subst hk
      simp [mset, keys]
    · simp only [keys, List.map_cons, List.mem_cons] at h
      rcases h with h | h
      · exact absurd h hk
      · simp only [mset, if_neg hk, keys, List.map_cons]
        rw [show List.map Prod.fst (mset rest k v) = keys (mset rest k v) from rfl, ih h]
        rfl

theorem keys_mset_of_not_mem {κ α : Type} [DecidableEq κ] (m : List (κ × α)) (k : κ) (v : α)
    (h : k ∉ keys m) : keys (mset m k v) = keys m ++ [k] := by
  induction m with
  | nil => simp [mset, keys]
  | cons p rest ih =>
    obtain ⟨pk, pv⟩ := p
    simp only [keys, List.map_cons, List.mem_cons] at h
    push_neg at h
    simp only [mset, if_neg h.1, keys, List.map_cons]
    rw [show List.map Prod.fst (mset rest k v) = keys (mset rest k v) from rfl, ih h.2]
    rfl

theorem nodup_keys_mset {κ α : Type} [DecidableEq κ] (m : List (κ × α)) (k : κ) (v : α)
    (h : (keys m).Nodup) : (keys (mset m k v)).Nodup := by
  by_cases hk : k ∈ keys m
  · rw [keys_mset_of_mem m k v hk]; exact h
  · rw [keys_mset_of_not_mem m k v hk]
    rw [List.nodup_append]
    refine ⟨h, List.nodup_singleton k, ?_⟩
    intro a ha hb
    rw [List.mem_singleton] at hb
    subst hb
    exact hk ha

theorem nodup_keys_mofList {κ α : Type} [DecidableEq κ] (l : List (κ × α)) :
    (keys (mofList l)).Nodup := by
  have main : ∀ (l : List (κ × α)) (m : List (κ × α)), (keys m).Nodup →
      (keys (l.foldl (fun m p => mset m p.1 p.2) m)).Nodup := by
    intro l
    induction l with
    | nil => intro m hm; simpa using hm
    | cons p rest ih =>
      intro m hm
      exact ih (mset m p.1 p.2) (nodup_keys_mset m p.1 p.2 hm)
  exact main l [] (by simp [keys])

theorem mem_keys_foldl_mset {κ α : Type} [DecidableEq κ] (l : List (κ × α))
    (m : List (κ × α)) (k : κ) :
    k ∈ keys (l.foldl (fun m p => mset m p.1 p.2) m) ↔
      k ∈ keys m ∨ k ∈ l.map Prod.fst := by
  induction l generalizing m with
  | nil => simp
  | cons p rest ih =>
    simp only [List.foldl_cons, List.map_cons, List.mem_cons]
    rw [ih]
    rw [mem_keys_mset]
    tauto

theorem mem_keys_mofList {κ α : Type} [DecidableEq κ] (l : List (κ × α)) (k : κ) :
    k ∈ keys (mofList l) ↔ k ∈ l.map Prod.fst := by
  rw [mofList, mem_keys_foldl_mset]
  simp [keys]

theorem mget_foldl_mset {κ α : Type} [DecidableEq κ] (l : List (κ × α))
    (m : List (κ × α)) (k : κ) :
    mget (l.foldl (fun m p => mset m p.1 p.2) m) k =
      oOr (mget (mofList l) k) (mget m k) := by
  induction l generalizing m with
  | nil => simp [mofList, mget, oOr]
  | cons p rest ih =>
    simp only [List.foldl_cons]
    rw [ih]
    have hr : mget (mofList (p :: rest)) k =
        oOr (mget (mofList rest) k) (mget (mset [] p.1 p.2) k) := by
      simp only [mofList, List.foldl_cons]
      exact ih (mset [] p.1 p.2)
    rw [hr]
    rw [mget_mset]
    have hm : mget (mset ([] : List (κ × α)) p.1 p.2) k =
        if k = p.1 then some p.2 else none := by
      simp [mset, mget]
    rw [hm]
    by_cases h : k = p.1 <;> cases hrest : mget (mofList rest) k <;>
      simp [oOr, h, hrest]

theorem mem_setAdd (s : List String) (x y : String) :
    y ∈ setAdd s x ↔ y ∈ s ∨ y = x := by
  by_cases h : x ∈ s
  · simp only [setAdd, if_pos h]
    constructor
    · exact fun hy => Or.inl hy
    · rintro (hy | rfl)
      · exact hy
      · exact h
  · simp [setAdd, if_neg h]

theorem nodup_setAdd (s : List String) (x : String) (h : s.Nodup) :
    (setAdd s x).Nodup := by
  by_cases hx : x ∈ s
  · simpa [setAdd, hx] using h
  · simp only [setAdd, if_neg hx]
    rw [List.nodup_append]
    refine ⟨h, List.nodup_singleton x, ?_⟩
    intro a ha hb
    rw [List.mem_singleton] at hb
    subst hb
    exact hx ha

theorem mem_foldl_setAdd (l : List String) (s : List String) (y : String) :
    y ∈ l.foldl setAdd s ↔ y ∈ s ∨ y ∈ l := by
  induction l generalizing s with
  | nil => simp
  | cons x rest ih =>
    simp only [List.foldl_cons, List.mem_cons]
    rw [ih, mem_setAdd]
    tauto

theorem mem_setOfList (l : List String) (y : String) :
    y ∈ setOfList l ↔ y ∈ l := by
  rw [setOfList, mem_foldl_setAdd]
  simp

theorem nodup_setOfList (l : List String) : (setOfList l).Nodup := by
  have main : ∀ (l s : List String), s.Nodup → (l.foldl setAdd s).Nodup := by
    intro l
    induction l with
    | nil => intro s hs; simpa using hs
    | cons x rest ih => intro s hs; exact ih (setAdd s x) (nodup_setAdd s x hs)
  exact main l [] (List.nodup_nil)

theorem filter_foldl_setAdd (p : String → Bool) (l : List String) (s : List String)
    (h : ∀ x ∈ l, p x → x ∈ s) :
    (l.foldl setAdd s).filter p = s.filter p := by
  induction l generalizing s with
  | nil => rfl
  | cons x rest ih =>
    simp only [List.foldl_cons]
    rw [ih (setAdd s x) ?side]
    case side =>
      intro a ha hp
      rw [mem_setAdd]
      exact Or.inl (h a (List.mem_cons_of_mem x ha) hp)
    by_cases hx : x ∈ s
    · simp [setAdd, hx]
    · simp only [setAdd, if_neg hx, List.filter_append]
      have : p x = false := by
        cases hpx : p x
        · rfl
        · exact absurd (h x (List.mem_cons_self x rest) hpx) hx
      simp [List.filter, this]

theorem maxYear_isSome (l : List (Int × ℚ)) (h : l ≠ []) : (maxYear l).isSome := by
  cases l with
  | nil => exact absurd rfl h
  | cons p rest => simp [maxYear]

theorem maxYear_bound (l : List (Int × ℚ)) (m : Int) (hm : maxYear l = some m) :
    ∀ p ∈ l, p.1 ≤ m := by
  induction l generalizing m with
  | nil => simp
  | cons q rest ih =>
    intro p hp
    simp only [maxYear] at hm
    rcases List.mem_cons.mp hp with rfl | hp
    · cases hrest : maxYear rest with
      | none => rw [hrest] at hm; simp at hm; omega
      | some m' =>
        rw [hrest] at hm
        simp only [Option.some.injEq] at hm
        subst hm
        exact le_max_left _ _
    · cases hrest : maxYear rest with
      | none =>
        cases rest with
        | nil => simp at hp
        | cons a b => simp [maxYear] at hrest
      | some m' =>
        rw [hrest] at hm
        simp only [Option.some.injEq] at hm
        subst hm
        exact le_trans (ih m' hrest p hp) (le_max_right _ _)

theorem maxYear_mem (l : List (Int × ℚ)) (m : Int) (hm : maxYear l = some m) :
    ∃ p ∈ l, p.1 = m := by
  induction l generalizing m with
  | nil => simp [maxYear] at hm
  | cons q rest ih =>
    simp only [maxYear] at hm
    cases hrest : maxYear rest with
    | none =>
      rw [hrest] at hm
      simp only [Option.some.injEq] at hm
      exact ⟨q, List.mem_cons_self q rest, hm⟩
    | some m' =>
      rw [hrest] at hm
      simp only [Option.some.injEq] at hm
      subst hm
      rcases le_or_lt m' q.1 with hle | hlt
      · exact ⟨q, List.mem_cons_self q rest, (max_eq_left hle).symm⟩
      · obtain ⟨p, hp, hpm⟩ := ih m' hrest
        exact ⟨p, List.mem_cons_of_mem q hp, by rw [hpm]; exact (max_eq_right hlt.le).symm⟩

theorem maxYear_append_single (l : List (Int × ℚ)) (y : Int) (v : ℚ) :
    maxYear (l ++ [(y, v)]) =
      some (match maxYear l with | none => y | some m => max m y) := by
  induction l with
  | nil => simp [maxYear]
  | cons p rest ih =>
    cases hrest : maxYear rest with
    | none =>
      have hnil : rest = [] := by
        cases rest with
        | nil => rfl
        | cons a b => simp [maxYear] at hrest
      subst hnil
      simp [maxYear]
    | some m =>
      rw [List.cons_append]
      simp only [maxYear, ih, hrest]
      simp only [Option.some.injEq]
      exact (max_assoc p.1 m y).symm

theorem latestOfGood_year (l : List (Int × ℚ)) (e : LatestEntry)
    (h : latestOfGood l = some e) : maxYear l = some e.year := by
  unfold latestOfGood at h
  cases hm : maxYear l with
  | none => rw [hm] at h; simp at h
  | some m =>
    rw [hm, Option.some_bind] at h
    cases hf : l.find? (fun p => p.1 == m) with
    | none => rw [hf] at h; simp at h
    | some p =>
      rw [hf] at h
      have hpm := List.find?_some hf
      rw [beq_iff_eq] at hpm
      have he : ({ value := p.2, year := p.1 } : LatestEntry) = e := by simpa using h
      rw [← he]
      simp [hpm]

theorem latestOfGood_append_new (l : List (Int × ℚ)) (y : Int) (v : ℚ)
    (h : ∀ p ∈ l, p.1 < y) : latestOfGood (l ++ [(y, v)]) = some ⟨v, y⟩ := by
  unfold latestOfGood
  rw [maxYear_append_single]
  have hmax : (match maxYear l with | none => y | some m => max m y) = y := by
    cases hm : maxYear l with
    | none => rfl
    | some m =>
      obtain ⟨p, hp, hpm⟩ := maxYear_mem l m hm
      have hlt : m < y := hpm ▸ h p hp
      exact max_eq_right hlt.le
  rw [hmax, Option.some_bind, List.find?_append]
  have hnone : l.find? (fun p => p.1 == y) = none := by
    rw [List.find?_eq_none]
    intro p hp
    have := h p hp
    simp only [beq_iff_eq]
    omega
  rw [hnone]
  simp [List.find?]

theorem latestOfGood_append_old (l : List (Int × ℚ)) (y : Int) (v : ℚ) (m : Int)
    (hm : maxYear l = some m) (h : y ≤ m) :
    latestOfGood (l ++ [(y, v)]) = latestOfGood l := by
  unfold latestOfGood
  rw [maxYear_append_single, hm]
  simp only [max_eq_left h]
  rw [Option.some_bind, Option.some_bind, List.find?_append]
  cases hf : l.find? (fun p => p.1 == m) with
  | none =>
    obtain ⟨p, hp, hpm⟩ := maxYear_mem l m hm
    rw [List.find?_eq_none] at hf
    have := hf p hp
    simp [hpm] at this
  | some p => simp

theorem stepObs_skip (acc : Bundle) (row : Obs) (h : coerceValue row.value = none) :
    stepObs acc row = acc := by
  unfold stepObs
  rw [h]

theorem foldl_stepObs_filter (l : List Obs) (acc : Bundle) :
    l.foldl stepObs acc = (l.filter (fun r => (coerceValue r.value).isSome)).foldl stepObs acc := by
  induction l generalizing acc with
  | nil => rfl
  | cons r rest ih =>
    cases hv : coerceValue r.value with
    | none =>
      simp only [List.foldl_cons, List.filter_cons, hv, Option.isSome_none]
      rw [stepObs_skip acc r hv]
      exact ih acc
    | some v =>
      simp only [List.foldl_cons, List.filter_cons, hv, Option.isSome_some]
      exact ih (stepObs acc r)

theorem goodObs_singleton_ne (r : Obs) (iso : String)
    (h : ¬ (r.countryiso3code ≠ "" ∧ jsUpper r.countryiso3code = iso)) :
    goodObs [r] iso = [] := by
  simp [goodObs, h]

theorem goodObs_singleton_skip (r : Obs) (iso : String)
    (h : coerceValue r.value = none) : goodObs [r] iso = [] := by
  simp [goodObs, h]

theorem goodObs_singleton_good (r : Obs) (iso : String) (v : ℚ)
    (hc : r.countryiso3code ≠ "") (hu : jsUpper r.countryiso3code = iso)
    (hv : coerceValue r.value = some v) : goodObs [r] iso = [(r.date, v)] := by
  simp [goodObs, hc, hu, hv]

theorem goodObs_append (rows₁ rows₂ : List Obs) (iso : String) :
    goodObs (rows₁ ++ rows₂) iso = goodObs rows₁ iso ++ goodObs rows₂ iso := by
  unfold goodObs
  exact List.filterMap_append rows₁ rows₂ _

theorem fetchIndicator_append_single (rows : List Obs) (r : Obs) :
    fetchIndicator (rows ++ [r]) =
      if r.countryiso3code = "" then fetchIndicator rows
      else stepObs (fetchIndicator rows) r := by
  unfold fetchIndicator
  rw [List.filter_append, List.foldl_append]
  by_cases hc : r.countryiso3code = ""
  · simp [List.filter, hc]
  · have : (r.countryiso3code == "") = false := by
      simp [hc]
    simp [List.filter, this, hc]

theorem latestOfGood_isSome (l : List (Int × ℚ)) (h : l ≠ []) :
    (latestOfGood l).isSome := by
  unfold latestOfGood
  cases hm : maxYear l with
  | none =>
    have := maxYear_isSome l h
    rw [hm] at this
    simp at this
  | some m =>
    rw [Option.some_bind]
    obtain ⟨p, hp, hpm⟩ := maxYear_mem l m hm
    have : (l.find? (fun p => p.1 == m)).isSome := by
      rw [List.find?_isSome]
      exact ⟨p, hp, by simp [hpm]⟩
    cases hf : l.find? (fun p => p.1 == m) with
    | none => rw [hf] at this; simp at this
    | some q => simp

theorem stepObs_latest (acc : Bundle) (r : Obs) (v : ℚ)
    (hv : coerceValue r.value = some v) (iso : String) :
    mget (stepObs acc r).latest iso =
      if jsUpper r.countryiso3code = iso then
        match mget acc.latest iso with
        | none => some ⟨v, r.date⟩
        | some prev => if prev.year < r.date then some ⟨v, r.date⟩ else some prev
      else mget acc.latest iso := by
  unfold stepObs
  rw [hv]
  simp only []
  by_cases hu : jsUpper r.countryiso3code = iso
  · rw [if_pos hu]
    cases hprev : mget acc.latest (jsUpper r.countryiso3code) with
    | none =>
      rw [hu] at hprev
      rw [hprev]
      show mget (mset acc.latest (jsUpper r.countryiso3code) ⟨v, r.date⟩) iso =
        some ⟨v, r.date⟩
      rw [mget_mset, hu, if_pos rfl]
    | some prev =>
      rw [hu] at hprev
      rw [hprev]
      show mget (if prev.year < r.date then
            mset acc.latest (jsUpper r.countryiso3code) ⟨v, r.date⟩ else acc.latest) iso =
          if prev.year < r.date then some ⟨v, r.date⟩ else some prev
      by_cases hy : prev.year < r.date
      · rw [if_pos hy, if_pos hy, mget_mset, hu, if_pos rfl]
      · rw [if_neg hy, if_neg hy, hprev]
  · rw [if_neg hu]
    cases hprev : mget acc.latest (jsUpper r.countryiso3code) with
    | none =>
      show mget (mset acc.latest (jsUpper r.countryiso3code) ⟨v, r.date⟩) iso =
        mget acc.latest iso
      rw [mget_mset, if_neg (fun h => hu h.symm)]
    | some prev =>
      show mget (if prev.year < r.date then
            mset acc.latest (jsUpper r.countryiso3code) ⟨v, r.date⟩ else acc.latest) iso =
          mget acc.latest iso
      by_cases hy : prev.year < r.date
      · rw [if_pos hy, mget_mset, if_neg (fun h => hu h.symm)]
      · rw [if_neg hy]

theorem stepObs_series (acc : Bundle) (r : Obs) (v : ℚ)
    (hv : coerceValue r.value = some v) (iso : String) :
    mget (stepObs acc r).series iso =
      if jsUpper r.countryiso3code = iso then
        some (match mget ((mget acc.series iso).getD []) r.date with
          | some _ => (mget acc.series iso).getD []
          | none => mset ((mget acc.series iso).getD []) r.date v)
      else mget acc.series iso := by
  unfold stepObs
  rw [hv]
  simp only []
  by_cases hu : jsUpper r.countryiso3code = iso
  · rw [if_pos hu, mget_mset, hu, if_pos rfl]
  · rw [if_neg hu, mget_mset, if_neg (fun h => hu h.symm)]

theorem fetchIndicator_latest_char (rows : List Obs) (iso : String) :
    mget (fetchIndicator rows).latest iso = latestOfGood (goodObs rows iso) := by
  induction rows using List.reverseRecOn with
  | nil => rfl
  | append_singleton rows r ih =>
    rw [fetchIndicator_append_single, goodObs_append]
    by_cases hc : r.countryiso3code = ""
    · rw [if_pos hc, goodObs_singleton_ne r iso (by simp [hc]), List.append_nil]
      exact ih
    · rw [if_neg hc]
      cases hv : coerceValue r.value with
      | none =>
        rw [stepObs_skip _ r hv, goodObs_singleton_skip r iso hv, List.append_nil]
        exact ih
      | some v =>
        rw [stepObs_latest _ r v hv iso]
        by_cases hu : jsUpper r.countryiso3code = iso
        · rw [if_pos hu, goodObs_singleton_good r iso v hc hu hv]
          rw [ih]
          cases he : latestOfGood (goodObs rows iso) with
          | none =>
            have hg : goodObs rows iso = [] := by
              by_contra hne
              have := latestOfGood_isSome _ hne
              rw [he] at this
              simp at this
            show some ⟨v, r.date⟩ = latestOfGood (goodObs rows iso ++ [(r.date, v)])
            rw [hg]
            rw [latestOfGood_append_new [] r.date v (by simp)]
          | some e =>
            have hm := latestOfGood_year _ _ he
            show (if e.year < r.date then some ⟨v, r.date⟩ else some e) =
              latestOfGood (goodObs rows iso ++ [(r.date, v)])
            by_cases hy : e.year < r.date
            · rw [if_pos hy]
              rw [latestOfGood_append_new (goodObs rows iso) r.date v ?bound]
              case bound =>
                intro p hp
                have := maxYear_bound _ _ hm p hp
                omega
            · rw [if_neg hy]
              rw [latestOfGood_append_old (goodObs rows iso) r.date v e.year hm (by omega)]
              rw [he]
        · rw [if_neg hu, goodObs_singleton_ne r iso (by intro hh; exact hu hh.2),
            List.append_nil]
          exact ih

theorem fetchIndicator_series_char (rows : List Obs) (iso : String) (y : Int) :
    mget ((mget (fetchIndicator rows).series iso).getD []) y =
      ((goodObs rows iso).find? (fun p => p.1 == y)).map Prod.snd := by
  induction rows using List.reverseRecOn generalizing y with
  | nil => rfl
  | append_singleton rows r ih =>
    rw [fetchIndicator_append_single, goodObs_append]
    by_cases hc : r.countryiso3code = ""
    · rw [if_pos hc, goodObs_singleton_ne r iso (by simp [hc]), List.append_nil]
      exact ih y
    · rw [if_neg hc]
      cases hv : coerceValue r.value with
      | none =>
        rw [stepObs_skip _ r hv, goodObs_singleton_skip r iso hv, List.append_nil]
        exact ih y
      | some v =>
        rw [stepObs_series _ r v hv iso]
        by_cases hu : jsUpper r.countryiso3code = iso
        · rw [if_pos hu, goodObs_singleton_good r iso v hc hu hv, List.find?_append]
          cases hs : mget ((mget (fetchIndicator rows).series iso).getD []) r.date with
          | some w =>
            show mget ((mget (fetchIndicator rows).series iso).getD []) y = _
            by_cases hy : y = r.date
            · rw [hy]
              cases hf : (goodObs rows iso).find? (fun p => p.1 == r.date) with
              | none =>
                have hg := ih r.date
                rw [hf, hs] at hg
                simp at hg
              | some p =>
                show mget ((mget (fetchIndicator rows).series iso).getD []) r.date =
                  Option.map Prod.snd (some p)
                rw [ih r.date, hf]
            · have hbeq : (r.date == y) = false := by
                rw [beq_eq_false_iff_ne]
                exact fun h => hy h.symm
              have hone : ([(r.date, v)].find? (fun p => p.1 == y)) = none := by
                simp [List.find?, hbeq]
              rw [hone, Option.or_none]
              exact ih y
          | none =>
            show mget (mset ((mget (fetchIndicator rows).series iso).getD []) r.date v) y = _
            rw [mget_mset]
            by_cases hy : y = r.date
            · rw [if_pos hy, hy]
              cases hf : (goodObs rows iso).find? (fun p => p.1 == r.date) with
              | none =>
                show some v =
                  Option.map Prod.snd ([(r.date, v)].find? (fun p => p.1 == r.date))
                simp [List.find?]
              | some p =>
                have hg := ih r.date
                rw [hf, hs] at hg
                simp at hg
            · rw [if_neg hy]
              have hbeq : (r.date == y) = false := by
                rw [beq_eq_false_iff_ne]
                exact fun h => hy h.symm
              have hone : ([(r.date, v)].find? (fun p => p.1 == y)) = none := by
                simp [List.find?, hbeq]
              rw [hone, Option.or_none]
              exact ih y
        · rw [if_neg hu, goodObs_singleton_ne r iso (by intro hh; exact hu hh.2),
            List.append_nil]
          exact ih y

theorem fetchIndicator_latest_imp_series (rows : List Obs) (iso : String)
    (h : (mget (fetchIndicator rows).latest iso).isSome) :
    (mget (fetchIndicator rows).series iso).isSome := by
  induction rows using List.reverseRecOn with
  | nil => simp [fetchIndicator, mget] at h
  | append_singleton rows r ih =>
    rw [fetchIndicator_append_single] at h ⊢
    by_cases hc : r.countryiso3code = ""
    · rw [if_pos hc] at h ⊢
      exact ih h
    · rw [if_neg hc] at h ⊢
      cases hv : coerceValue r.value with
      | none =>
        rw [stepObs_skip _ r hv] at h ⊢
        exact ih h
      | some v =>
        rw [stepObs_latest _ r v hv iso] at h
        rw [stepObs_series _ r v hv iso]
        by_cases hu : jsUpper r.countryiso3code = iso
        · rw [if_pos hu]
          simp
        · rw [if_neg hu] at h ⊢
          exact ih h

theorem latestOfGood_find (l : List (Int × ℚ)) (e : LatestEntry)
    (h : latestOfGood l = some e) :
    (l.find? (fun p => p.1 == e.year)).map Prod.snd = some e.value := by
  have hm := latestOfGood_year l e h
  unfold latestOfGood at h
  rw [hm, Option.some_bind] at h
  cases hf : l.find? (fun p => p.1 == e.year) with
  | none => rw [hf] at h; simp at h
  | some p =>
    rw [hf] at h
    have he : ({ value := p.2, year := p.1 } : LatestEntry) = e := by simpa using h
    rw [← he]
    simp

theorem fetchIndicator_consistent (rows : List Obs) (iso : String) (e : LatestEntry)
    (h : mget (fetchIndicator rows).latest iso = some e) :
    ∃ s, mget (fetchIndicator rows).series iso = some s ∧ mget s e.year = some e.value := by
  have hsome : (mget (fetchIndicator rows).series iso).isSome :=
    fetchIndicator_latest_imp_series rows iso (by rw [h]; rfl)
  cases hms : mget (fetchIndicator rows).series iso with
  | none => rw [hms] at hsome; simp at hsome
  | some s =>
    refine ⟨s, rfl, ?_⟩
    have hc := fetchIndicator_series_char rows iso e.year
    rw [hms] at hc
    simp only [Option.getD_some] at hc
    rw [hc]
    have hl := fetchIndicator_latest_char rows iso
    rw [h] at hl
    exact latestOfGood_find _ _ hl.symm

theorem attachOne_iso3 (iso : String) (row : CountryRecord) (p : String × Bundle) :
    (attachOne iso row p).iso3 = row.iso3 := by
  cases hA : mget p.2.latest iso <;> cases hB : mget p.2.series iso <;>
    simp [attachOne, hA, hB]

theorem attachOne_iso2 (iso : String) (row : CountryRecord) (p : String × Bundle) :
    (attachOne iso row p).iso2 = row.iso2 := by
  cases hA : mget p.2.latest iso <;> cases hB : mget p.2.series iso <;>
    simp [attachOne, hA, hB]

theorem attachOne_country (iso : String) (row : CountryRecord) (p : String × Bundle) :
    (attachOne iso row p).country = row.country := by
  cases hA : mget p.2.latest iso <;> cases hB : mget p.2.series iso <;>
    simp [attachOne, hA, hB]

theorem foldl_attachOne_iso3 (iso : String) (pairs : List (String × Bundle))
    (row : CountryRecord) : (pairs.foldl (attachOne iso) row).iso3 = row.iso3 := by
  induction pairs generalizing row with
  | nil => rfl
  | cons p rest ih => rw [List.foldl_cons, ih, attachOne_iso3]

theorem foldl_attachOne_iso2 (iso : String) (pairs : List (String × Bundle))
    (row : CountryRecord) : (pairs.foldl (attachOne iso) row).iso2 = row.iso2 := by
  induction pairs generalizing row with
  | nil => rfl
  | cons p rest ih => rw [List.foldl_cons, ih, attachOne_iso2]

theorem foldl_attachOne_country (iso : String) (pairs : List (String × Bundle))
    (row : CountryRecord) : (pairs.foldl (attachOne iso) row).country = row.country := by
  induction pairs generalizing row with
  | nil => rfl
  | cons p rest ih => rw [List.foldl_cons, ih, attachOne_country]

theorem attachOne_metric_ne (iso : String) (row : CountryRecord) (p : String × Bundle)
    (k : String) (hk : k ≠ p.1) :
    (attachOne iso row p).metricLatest k = row.metricLatest k
    ∧ (attachOne iso row p).metricYear k = row.metricYear k
    ∧ (attachOne iso row p).metricSeries k = row.metricSeries k := by
  cases hA : mget p.2.latest iso <;> cases hB : mget p.2.series iso <;>
    simp [attachOne, hA, hB, hk]

theorem attachOne_metric_self (iso : String) (row : CountryRecord) (p : String × Bundle) :
    (attachOne iso row p).metricLatest p.1
        = oOr ((mget p.2.latest iso).map (fun e => e.value)) (row.metricLatest p.1)
    ∧ (attachOne iso row p).metricYear p.1
        = oOr ((mget p.2.latest iso).map (fun e => e.year)) (row.metricYear p.1)
    ∧ (attachOne iso row p).metricSeries p.1
        = oOr (mget p.2.series iso) (row.metricSeries p.1) := by
  cases hA : mget p.2.latest iso <;> cases hB : mget p.2.series iso <;>
    simp [attachOne, hA, hB, oOr]

theorem foldl_attachOne_not_mem (iso : String) (pairs : List (String × Bundle))
    (row : CountryRecord) (k : String) (hk : k ∉ pairs.map Prod.fst) :
    (pairs.foldl (attachOne iso) row).metricLatest k = row.metricLatest k
    ∧ (pairs.foldl (attachOne iso) row).metricYear k = row.metricYear k
    ∧ (pairs.foldl (attachOne iso) row).metricSeries k = row.metricSeries k := by
  induction pairs generalizing row with
  | nil => exact ⟨rfl, rfl, rfl⟩
  | cons p rest ih =>
    simp only [List.map_cons, List.mem_cons] at hk
    push_neg at hk
    rw [List.foldl_cons]
    obtain ⟨h1, h2, h3⟩ := ih (attachOne iso row p) hk.2
    obtain ⟨g1, g2, g3⟩ := attachOne_metric_ne iso row p k hk.1
    exact ⟨h1.trans g1, h2.trans g2, h3.trans g3⟩

theorem foldl_attachOne_char (iso : String) (pairs : List (String × Bundle))
    (row : CountryRecord) (k : String) (hnd : (pairs.map Prod.fst).Nodup)
    (hL : row.metricLatest k = none) (hY : row.metricYear k = none)
    (hS : row.metricSeries k = none) :
    (pairs.foldl (attachOne iso) row).metricLatest k
        = (pairs.find? (fun p => p.1 == k)).bind
            (fun p => (mget p.2.latest iso).map (fun e => e.value))
    ∧ (pairs.foldl (attachOne iso) row).metricYear k
        = (pairs.find? (fun p => p.1 == k)).bind
            (fun p => (mget p.2.latest iso).map (fun e => e.year))
    ∧ (pairs.foldl (attachOne iso) row).metricSeries k
        = (pairs.find? (fun p => p.1 == k)).bind (fun p => mget p.2.series iso) := by
  induction pairs generalizing row with
  | nil => exact ⟨hL, hY, hS⟩
  | cons p rest ih =>
    simp only [List.map_cons, List.nodup_cons] at hnd
    rw [List.foldl_cons]
    by_cases hp : p.1 = k
    · have hfind : (p :: rest).find? (fun q => q.1 == k) = some p := by
        simp [List.find?, hp]
      rw [hfind]
      have hrest : k ∉ rest.map Prod.fst := by
        rw [← hp]
        exact hnd.1
      obtain ⟨h1, h2, h3⟩ := foldl_attachOne_not_mem iso rest (attachOne iso row p) k hrest
      obtain ⟨g1, g2, g3⟩ := attachOne_metric_self iso row p
      rw [hp] at g1 g2 g3
      rw [h1, h2, h3, g1, g2, g3, hL, hY, hS]
      refine ⟨?_, ?_, ?_⟩ <;>
        (simp only [Option.some_bind];
          cases mget p.2.latest iso <;> cases mget p.2.series iso <;> simp [oOr])
    · have hbeq : (p.1 == k) = false := by
        rw [beq_eq_false_iff_ne]
        exact hp
      have hfind : (p :: rest).find? (fun q => q.1 == k) = rest.find? (fun q => q.1 == k) := by
        simp [List.find?, hbeq]
      rw [hfind]
      obtain ⟨g1, g2, g3⟩ := attachOne_metric_ne iso row p k (fun h => hp h.symm)
      exact ih (attachOne iso row p) hnd.2 (g1.trans hL) (g2.trans hY) (g3.trans hS)

theorem mset_eq_append {κ α : Type} [DecidableEq κ] (m : List (κ × α)) (k : κ) (v : α)
    (h : k ∉ keys m) : mset m k v = m ++ [(k, v)] := by
  induction m with
  | nil => rfl
  | cons p rest ih =>
    obtain ⟨pk, pv⟩ := p
    simp only [keys, List.map_cons, List.mem_cons] at h
    push_neg at h
    simp only [mset, if_neg h.1, List.cons_append, List.cons.injEq, true_and]
    exact ih h.2

theorem mofList_eq_self {κ α : Type} [DecidableEq κ] (m : List (κ × α))
    (h : (keys m).Nodup) : mofList m = m := by
  have main : ∀ (m acc : List (κ × α)), (keys (acc ++ m)).Nodup →
      m.foldl (fun m p => mset m p.1 p.2) acc = acc ++ m := by
    intro m
    induction m with
    | nil => intro acc _; simp
    | cons p rest ih =>
      intro acc hacc
      have hkeys : keys (acc ++ p :: rest) = keys acc ++ (p.1 :: keys rest) := by
        simp [keys]
      rw [hkeys] at hacc
      have hp1 : p.1 ∉ keys acc := by
        rw [List.nodup_append] at hacc
        intro hmem
        exact hacc.2.2 hmem (List.mem_cons_self _ _)
      rw [List.foldl_cons, mset_eq_append acc p.1 p.2 hp1]
      have heq : p = (p.1, p.2) := rfl
      rw [ih (acc ++ [(p.1, p.2)]) ?nd]
      case nd =>
        rw [List.append_assoc]
        have : keys (acc ++ ([(p.1, p.2)] ++ rest)) = keys acc ++ (p.1 :: keys rest) := by
          simp [keys]
        rw [this]
        exact hacc
      rw [List.append_assoc]
      simp
  exact main m [] (by simpa [keys] using h)

theorem mget_mofList_self {κ α : Type} [DecidableEq κ] (m : List (κ × α))
    (h : (keys m).Nodup) (k : κ) : mget (mofList m) k = mget m k := by
  rw [mofList_eq_self m h]

theorem mget_combinedNameMap (wb geo : List SrcCountry) (k : String) :
    mget (combinedNameMap wb geo) k =
      oOr (mget (nameMapOf wb) k) (mget (nameMapOf geo) k) := by
  unfold combinedNameMap
  rw [mget_foldl_mset]
  have hnd : (keys (nameMapOf wb)).Nodup := by
    unfold nameMapOf
    exact nodup_keys_mofList _
  rw [mofList_eq_self (nameMapOf wb) hnd]

theorem mem_keys_nameMapOf (l : List SrcCountry) (k : String) :
    k ∈ keys (nameMapOf l) ↔ k ∈ l.map SrcCountry.iso3 := by
  unfold nameMapOf
  rw [mem_keys_mofList]
  rw [List.map_map]
  rfl

theorem mergeKeys_nodup (wb geo : List SrcCountry) (pairs : List (String × Bundle)) :
    (mergeKeys wb geo pairs).Nodup :=
  (nodup_setOfList _).filter _

theorem mem_mergeKeys (wb geo : List SrcCountry) (pairs : List (String × Bundle))
    (iso : String) :
    iso ∈ mergeKeys wb geo pairs ↔
      iso ∈ wb.map SrcCountry.iso3 ∨ iso ∈ geo.map SrcCountry.iso3 := by
  unfold mergeKeys allIsoOf
  rw [List.mem_filter]
  constructor
  · rintro ⟨-, hp⟩
    rcases Bool.or_eq_true_iff.mp hp with hp | hp
    · exact Or.inl ((mem_keys_nameMapOf wb iso).mp
        ((mget_isSome_iff_mem_keys _ iso).mp hp))
    · exact Or.inr ((mem_keys_nameMapOf geo iso).mp
        ((mget_isSome_iff_mem_keys _ iso).mp hp))
  · intro hmem
    have hname : iso ∈ keys (nameMapOf wb) ∨ iso ∈ keys (nameMapOf geo) := by
      rcases hmem with h | h
      · exact Or.inl ((mem_keys_nameMapOf wb iso).mpr h)
      · exact Or.inr ((mem_keys_nameMapOf geo iso).mpr h)
    refine ⟨?_, ?_⟩
    · rw [mem_setOfList]
      rcases hname with h | h
      · exact List.mem_append_left _ (List.mem_append_left _ h)
      · exact List.mem_append_left _ (List.mem_append_right _ h)
    · rcases hname with h | h
      · exact Bool.or_eq_true_iff.mpr (Or.inl ((mget_isSome_iff_mem_keys _ iso).mpr h))
      · exact Bool.or_eq_true_iff.mpr (Or.inr ((mget_isSome_iff_mem_keys _ iso).mpr h))

theorem filter_setOfList_append (p : String → Bool) (N C : List String)
    (h : ∀ x ∈ C, p x → x ∈ setOfList N) :
    (setOfList (N ++ C)).filter p = (setOfList N).filter p := by
  unfold setOfList
  rw [List.foldl_append]
  exact filter_foldl_setAdd p C (List.foldl setAdd [] N) h

theorem mergeKeys_indep (wb geo : List SrcCountry) (pairs : List (String × Bundle)) :
    mergeKeys wb geo pairs = mergeKeys wb geo [] := by
  unfold mergeKeys allIsoOf
  have hflat : (List.map (fun p => keys p.2.latest) ([] : List (String × Bundle))).flatten
      = ([] : List String) := rfl
  rw [hflat, List.append_nil]
  rw [filter_setOfList_append _ _ _ ?base]
  case base =>
    intro x _ hx
    rw [mem_setOfList]
    rcases Bool.or_eq_true_iff.mp hx with hx | hx
    · exact List.mem_append_left _ ((mget_isSome_iff_mem_keys _ x).mp hx)
    · exact List.mem_append_right _ ((mget_isSome_iff_mem_keys _ x).mp hx)

theorem find?_eq_of_perm {α : Type} (p : α → Bool) (l₁ l₂ : List α) (hp : l₁.Perm l₂)
    (hu : ∀ a ∈ l₁, ∀ b ∈ l₁, p a → p b → a = b) :
    l₁.find? p = l₂.find? p := by
  cases hf : l₁.find? p with
  | none =>
    rw [List.find?_eq_none] at hf
    symm
    rw [List.find?_eq_none]
    intro x hx
    exact hf x (hp.symm.subset hx)
  | some a =>
    have ha₁ : a ∈ l₁ := List.mem_of_find?_eq_some hf
    have hpa : p a := List.find?_some hf
    cases hf₂ : l₂.find? p with
    | none =>
      rw [List.find?_eq_none] at hf₂
      exact absurd hpa (hf₂ a (hp.subset ha₁))
    | some b =>
      have hb₂ : b ∈ l₂ := List.mem_of_find?_eq_some hf₂
      have hpb : p b := List.find?_some hf₂
      have hb₁ : b ∈ l₁ := hp.symm.subset hb₂
      rw [hu a ha₁ b hb₁ hpa hpb]

theorem eq_of_mem_nodup_fst {α β : Type} : ∀ (l : List (α × β)), (l.map Prod.fst).Nodup →
    ∀ a b : α × β, a ∈ l → b ∈ l → a.1 = b.1 → a = b := by
  intro l
  induction l with
  | nil =>
    intro _ a b ha _ _
    simp at ha
  | cons p rest ih =>
    intro hnd a b ha hb hfst
    simp only [List.map_cons, List.nodup_cons] at hnd
    rcases List.mem_cons.mp ha with ha' | ha'
    · rcases List.mem_cons.mp hb with hb' | hb'
      · rw [ha', hb']
      · exfalso
        apply hnd.1
        have hmem : b.1 ∈ rest.map Prod.fst := List.mem_map_of_mem Prod.fst hb'
        rw [← hfst, ha'] at hmem
        exact hmem
    · rcases List.mem_cons.mp hb with hb' | hb'
      · exfalso
        apply hnd.1
        have hmem : a.1 ∈ rest.map Prod.fst := List.mem_map_of_mem Prod.fst ha'
        rw [hfst, hb'] at hmem
        exact hmem
      · exact ih hnd.2 a b ha' hb' hfst

theorem rowFor_iso3 (wb geo : List SrcCountry) (pairs : List (String × Bundle))
    (iso : String) : (rowFor wb geo pairs iso).iso3 = iso := by
  unfold rowFor
  rw [foldl_attachOne_iso3]
  rfl

theorem rowFor_country (wb geo : List SrcCountry) (pairs : List (String × Bundle))
    (iso : String) :
    (rowFor wb geo pairs iso).country =
      match oOr (mget (nameMapOf wb) iso) (mget (nameMapOf geo) iso) with
      | some s => if s = "" then iso else s
      | none => iso := by
  unfold rowFor
  rw [foldl_attachOne_country]
  show (match mget (combinedNameMap wb geo) iso with
    | some s => if s = "" then iso else s
    | none => iso) = _
  rw [mget_combinedNameMap]

theorem rowFor_perm (wb geo : List SrcCountry) (pairs₁ pairs₂ : List (String × Bundle))
    (hp : pairs₁.Perm pairs₂) (hnd : (pairs₁.map Prod.fst).Nodup) (iso : String) :
    rowFor wb geo pairs₁ iso = rowFor wb geo pairs₂ iso := by
  have hnd₂ : (pairs₂.map Prod.fst).Nodup := ((hp.map Prod.fst).nodup_iff).mp hnd
  have hfind : ∀ k : String, pairs₁.find? (fun p => p.1 == k) =
      pairs₂.find? (fun p => p.1 == k) := by
    intro k
    apply find?_eq_of_perm _ _ _ hp
    intro a ha b hb hpa hpb
    exact eq_of_mem_nodup_fst pairs₁ hnd a b ha hb
      ((beq_iff_eq.mp hpa).trans (beq_iff_eq.mp hpb).symm)
  apply CountryRecord.ext
  · rw [rowFor_iso3, rowFor_iso3]
  · unfold rowFor
    rw [foldl_attachOne_iso2, foldl_attachOne_iso2]
  · unfold rowFor
    rw [foldl_attachOne_country, foldl_attachOne_country]
  · funext k
    have h₁ := (foldl_attachOne_char iso pairs₁ (baseRow wb geo iso) k hnd rfl rfl rfl).1
    have h₂ := (foldl_attachOne_char iso pairs₂ (baseRow wb geo iso) k hnd₂ rfl rfl rfl).1
    rw [rowFor, h₁, rowFor, h₂, hfind k]
  · funext k
    have h₁ := (foldl_attachOne_char iso pairs₁ (baseRow wb geo iso) k hnd rfl rfl rfl).2.1
    have h₂ := (foldl_attachOne_char iso pairs₂ (baseRow wb geo iso) k hnd₂ rfl rfl rfl).2.1
    rw [rowFor, h₁, rowFor, h₂, hfind k]
  · funext k
    have h₁ := (foldl_attachOne_char iso pairs₁ (baseRow wb geo iso) k hnd rfl rfl rfl).2.2
    have h₂ := (foldl_attachOne_char iso pairs₂ (baseRow wb geo iso) k hnd₂ rfl rfl rfl).2.2
    rw [rowFor, h₁, rowFor, h₂, hfind k]

/-- C1 (as stated, refuted): with metadata source mapping USA to the empty
string and no boundary source, the claim requires the merged record's
display name to be that metadata name `""`; the code's `nameMap.get(iso) ||
iso` falls back to the ISO-3 code instead and yields `"USA"`. -/
theorem mergeRows_metadata_name_cex :
    (mergeRows [⟨"USA", none, ""⟩] [] []).map CountryRecord.country = ["USA"]
    ∧ mget (nameMapOf [⟨"USA", none, ""⟩]) "USA" = some ""
    ∧ ("USA" : String) ≠ "" := by
  refine ⟨rfl, rfl, by decide⟩

/-- C1 (amended): the merge produces exactly one record per ISO-3 code
present in at least one name source (codes only in a metric's latest map are
dropped), and each record's display name is the metadata-source name when
the code is present there, else the boundary-source name — except that an
empty-string name falls back to the ISO-3 code itself. -/
theorem mergeRows_union_names (wb geo : List SrcCountry)
    (pairs : List (String × Bundle)) :
    (∀ iso : String,
      ((mergeRows wb geo pairs).filter (fun r => r.iso3 == iso)).length =
        if iso ∈ wb.map SrcCountry.iso3 ∨ iso ∈ geo.map SrcCountry.iso3 then 1 else 0)
    ∧ (∀ r ∈ mergeRows wb geo pairs,
        r.country =
          match oOr (mget (nameMapOf wb) r.iso3) (mget (nameMapOf geo) r.iso3) with
          | some s => if s = "" then r.iso3 else s
          | none => r.iso3) := by
  constructor
  · intro iso
    unfold mergeRows
    rw [List.filter_map]
    rw [List.length_map]
    have hcongr : (mergeKeys wb geo pairs).filter
          ((fun r => r.iso3 == iso) ∘ rowFor wb geo pairs)
        = (mergeKeys wb geo pairs).filter (fun key => key == iso) := by
      apply List.filter_congr
      intro key _
      show ((rowFor wb geo pairs key).iso3 == iso) = (key == iso)
      rw [rowFor_iso3]
    rw [hcongr]
    rw [← List.countP_eq_length_filter]
    have hcount : (mergeKeys wb geo pairs).countP (fun key => key == iso)
        = (mergeKeys wb geo pairs).count iso := rfl
    rw [hcount]
    by_cases hmem : iso ∈ wb.map SrcCountry.iso3 ∨ iso ∈ geo.map SrcCountry.iso3
    · rw [if_pos hmem]
      exact List.count_eq_one_of_mem (mergeKeys_nodup wb geo pairs)
        ((mem_mergeKeys wb geo pairs iso).mpr hmem)
    · rw [if_neg hmem]
      exact List.count_eq_zero_of_not_mem
        (fun h => hmem ((mem_mergeKeys wb geo pairs iso).mp h))
  · intro r hr
    unfold mergeRows at hr
    obtain ⟨iso, hiso, rfl⟩ := List.mem_map.mp hr
    rw [rowFor_country, rowFor_iso3]

/-- C6: in the merged rows built from fetched indicator bundles (metric
fields pairwise distinct, as in the `METRICS` catalog), whenever a record
holds a latest value, its year and its series for one field, the series at
that year is exactly the latest value. -/
theorem merged_latest_matches_series (wb geo : List SrcCountry)
    (ms : List (String × List Obs)) (hnd : (ms.map Prod.fst).Nodup) :
    ∀ r ∈ mergeRows wb geo (ms.map (fun p => (p.1, fetchIndicator p.2))),
      ∀ (k : String) (v : ℚ) (y : Int) (s : List (Int × ℚ)),
        r.metricLatest k = some v → r.metricYear k = some y →
        r.metricSeries k = some s → mget s y = some v := by
  intro r hr k v y s hL hY hS
  set pairs := ms.map (fun p => (p.1, fetchIndicator p.2)) with hpairs
  have hndp : (pairs.map Prod.fst).Nodup := by
    rw [hpairs, List.map_map]
    exact hnd
  unfold mergeRows at hr
  obtain ⟨iso, hiso, rfl⟩ := List.mem_map.mp hr
  obtain ⟨c1, c2, c3⟩ :=
    foldl_attachOne_char iso pairs (baseRow wb geo iso) k hndp rfl rfl rfl
  rw [rowFor] at hL hY hS
  rw [c1] at hL
  rw [c2] at hY
  rw [c3] at hS
  cases hfind : pairs.find? (fun p => p.1 == k) with
  | none =>
    rw [hfind] at hL
    simp at hL
  | some p =>
    rw [hfind, Option.some_bind] at hL hY hS
    cases hlat : mget p.2.latest iso with
    | none =>
      rw [hlat] at hL
      simp at hL
    | some e =>
      rw [hlat] at hL hY
      have hv : e.value = v := by simpa using hL
      have hy : e.year = y := by simpa using hY
      have hp_mem : p ∈ pairs := List.mem_of_find?_eq_some hfind
      rw [hpairs] at hp_mem
      obtain ⟨q, hq, hpq⟩ := List.mem_map.mp hp_mem
      have h2 : p.2 = fetchIndicator q.2 := by rw [← hpq]
      rw [h2] at hlat hS
      obtain ⟨s', hs', hv'⟩ := fetchIndicator_consistent q.2 iso e hlat
      rw [hs'] at hS
      have hss : s' = s := by simpa using hS
      rw [← hv, ← hy, ← hss]
      exact hv'

/-- C6 witness: the pipeline on one metadata country and one metric with a
single observation (value `"5"`, year 2020); the merged record's series at
the latest year holds the latest value. -/
theorem merged_latest_matches_series_witness :
    mget [((2020 : Int), (5 : ℚ))] 2020 = some 5 := by
  have hrow : (mergeRows [⟨"USA", none, "United States"⟩] []
      ([("gdp", [⟨"USA", JsVal.num 5, 2020⟩])].map (fun p => (p.1, fetchIndicator p.2))))
      = [rowFor [⟨"USA", none, "United States"⟩] []
          ([("gdp", [⟨"USA", JsVal.num 5, 2020⟩])].map (fun p => (p.1, fetchIndicator p.2)))
          "USA"] := rfl
  exact merged_latest_matches_series [⟨"USA", none, "United States"⟩] []
    [("gdp", [⟨"USA", JsVal.num 5, 2020⟩])] (by decide)
    _ (by rw [hrow]; exact List.mem_singleton.mpr rfl)
    "gdp" 5 2020 [((2020 : Int), (5 : ℚ))] rfl rfl rfl

/-- C7: permuting the metric-bundle array handed to the merge (fields
pairwise distinct, as in the `METRICS` catalog) produces the identical
merged record list. -/
theorem mergeRows_perm (wb geo : List SrcCountry)
    (pairs₁ pairs₂ : List (String × Bundle)) (hp : pairs₁.Perm pairs₂)
    (hnd : (pairs₁.map Prod.fst).Nodup) :
    mergeRows wb geo pairs₁ = mergeRows wb geo pairs₂ := by
  unfold mergeRows
  rw [mergeKeys_indep wb geo pairs₁, mergeKeys_indep wb geo pairs₂]
  apply List.map_congr_left
  intro iso _
  exact rowFor_perm wb geo pairs₁ pairs₂ hp hnd iso

/-- C7 witness: swapping two concrete metric bundles leaves the merged
record list unchanged. -/
theorem mergeRows_perm_witness :
    mergeRows [⟨"USA", none, "United States"⟩] []
        [("gdp", ⟨[("USA", ⟨5, 2020⟩)], [("USA", [(2020, 5)])]⟩),
         ("pop", ⟨[], []⟩)]
      = mergeRows [⟨"USA", none, "United States"⟩] []
        [("pop", ⟨[], []⟩),
         ("gdp", ⟨[("USA", ⟨5, 2020⟩)], [("USA", [(2020, 5)])]⟩)] :=
  mergeRows_perm [⟨"USA", none, "United States"⟩] [] _ _
    (List.Perm.swap _ _ _) (by decide)

/-- C2: the indicator fetcher ignores observations whose value is nullish
or non-numeric after coercion; its series map holds the first value seen
for each year; its latest map holds the highest-year observation with the
first-seen value winning year ties. -/
theorem fetchIndicator_claim (rows : List Obs) :
    fetchIndicator rows
        = fetchIndicator (rows.filter (fun r => (coerceValue r.value).isSome))
    ∧ (∀ (iso : String) (y : Int),
        mget ((mget (fetchIndicator rows).series iso).getD []) y =
          ((goodObs rows iso).find? (fun p => p.1 == y)).map Prod.snd)
    ∧ (∀ iso : String,
        mget (fetchIndicator rows).latest iso = latestOfGood (goodObs rows iso)) := by
  refine ⟨?_, fetchIndicator_series_char rows, fetchIndicator_latest_char rows⟩
  unfold fetchIndicator
  rw [foldl_stepObs_filter]
  rw [List.filter_comm]

theorem bucketIndex_le_length (thresholds : List ℚ) (value : ℚ) :
    bucketIndex thresholds value ≤ thresholds.length := by
  induction thresholds with
  | nil => simp [bucketIndex]
  | cons t rest ih =>
    unfold bucketIndex
    by_cases h : t < value
    · rw [if_pos h]
      simpa using ih
    · rw [if_neg h]
      simp

/-- C3 (code-bug evidence): on the skewed distribution `skewedVals` — two
countries at 0, nine at 1, so two distinct values — the four quintile
thresholds all equal 1 (and are non-decreasing, as the code's own
`console.assert` checks), yet the minimum 0 and the maximum 1 both fall in
bucket 0 and are painted the same color, contradicting the claim and the
code's own `console.assert(minColorQ !== maxColorQ)` self-test. -/
theorem quantile_min_max_color_collision :
    (valueStats "gdp_per_capita_usd" skewedVals).vals
        = [0, 0, 1, 1, 1, 1, 1, 1, 1, 1, 1]
    ∧ List.Chain' (· ≤ ·) (valueStats "gdp_per_capita_usd" skewedVals).thresholds
    ∧ ((0 : ℚ) ≠ 1)
    ∧ colorFor "gdp_per_capita_usd" ScaleMode.quantile
        (valueStats "gdp_per_capita_usd" skewedVals)
        (linearStats "gdp_per_capita_usd" skewedVals) (some 0)
      = colorFor "gdp_per_capita_usd" ScaleMode.quantile
        (valueStats "gdp_per_capita_usd" skewedVals)
        (linearStats "gdp_per_capita_usd" skewedVals) (some 1) := by
  have hvs : valueStats "gdp_per_capita_usd" skewedVals =
      ⟨[0, 0, 1, 1, 1, 1, 1, 1, 1, 1, 1], [1, 1, 1, 1], whiteBluePalette 5⟩ := by
    norm_num +decide [valueStats, skewedVals, List.insertionSort, List.orderedInsert,
      quantileOf, jsFloorQ, jsCeilQ]
  refine ⟨by rw [hvs], ?_, by norm_num, ?_⟩
  · rw [hvs]
    norm_num [List.chain'_cons]
  · rw [hvs]
    norm_num +decide [colorFor, bucketIndex]

/-- C8 (as stated, refuted): with metric values {0, 1}, the color of a
missing value equals the color of the present value 0, in quantile mode and
in linear mode alike — the "no data" color is not distinct from every
data-driven color. -/
theorem colorFor_nodata_cex :
    colorFor "gdp" ScaleMode.quantile (valueStats "gdp" [some 0, some 1])
        (linearStats "gdp" [some 0, some 1]) none
      = colorFor "gdp" ScaleMode.quantile (valueStats "gdp" [some 0, some 1])
        (linearStats "gdp" [some 0, some 1]) (some 0)
    ∧ colorFor "gdp" ScaleMode.linear (valueStats "gdp" [some 0, some 1])
        (linearStats "gdp" [some 0, some 1]) none
      = colorFor "gdp" ScaleMode.linear (valueStats "gdp" [some 0, some 1])
        (linearStats "gdp" [some 0, some 1]) (some 0) := by
  have e1 : Int.fdiv 1 5 = 0 := by decide
  have e2 : Int.fdiv (-1) 5 = -1 := by decide
  have e3 : Int.fdiv 2 5 = 0 := by decide
  have e4 : Int.fdiv (-2) 5 = -1 := by decide
  have e5 : Int.fdiv 3 5 = 0 := by decide
  have e6 : Int.fdiv (-3) 5 = -1 := by decide
  have e7 : Int.fdiv 4 5 = 0 := by decide
  have e8 : Int.fdiv (-4) 5 = -1 := by decide
  have e9 : Int.fdiv 197 2 = 98 := by decide
  have hvs2 : valueStats "gdp" [some 0, some 1] =
      ⟨[0, 1], [1/5, 2/5, 3/5, 4/5], whiteBluePalette 5⟩ := by
    norm_num +decide [valueStats, List.insertionSort, List.orderedInsert,
      List.filterMap, quantileOf, jsFloorQ, jsCeilQ, e1, e2, e3, e4, e5, e6, e7, e8]
  have hls2 : linearStats "gdp" [some 0, some 1] = ⟨0, 1, true, 1⟩ := by
    norm_num +decide [linearStats, List.filterMap]
  rw [hvs2, hls2]
  constructor
  · norm_num +decide [colorFor, bucketIndex, whiteBluePalette, whiteBlue, jsRound,
      jsFloorQ, List.range, List.range.loop, e9]
  · norm_num +decide [colorFor, whiteBlue, jsRound, jsFloorQ, e9]

theorem valueStats_shape (colorMetric : String) (metricValues : List (Option ℚ))
    (hcm : colorMetric ≠ "") (hne : (valueStats colorMetric metricValues).vals ≠ []) :
    (valueStats colorMetric metricValues).palette = whiteBluePalette 5
    ∧ (valueStats colorMetric metricValues).thresholds.length = 4 := by
  unfold valueStats at hne ⊢
  rw [if_neg hcm] at hne ⊢
  by_cases hv : ((metricValues.filterMap id).insertionSort (· ≤ ·)) = []
  · rw [if_pos hv] at hne
    exact absurd rfl hne
  · rw [if_neg hv]
    exact ⟨rfl, by simp⟩

/-- C8 (amended): a missing or non-numeric value always maps to the fixed
color `whiteBlue 0`; in quantile mode this color does differ from the color
of any value in buckets 1-4 (a value strictly above the first threshold),
but coincides with the lowest bucket's color. -/
theorem colorFor_nodata_amended :
    (∀ (colorMetric : String) (mode : ScaleMode) (vs : VStats) (ls : LinearStats),
      colorFor colorMetric mode vs ls none = whiteBlue 0)
    ∧ (∀ (colorMetric : String) (metricValues : List (Option ℚ))
        (ls : LinearStats) (v : ℚ),
        colorMetric ≠ "" →
        1 ≤ bucketIndex (valueStats colorMetric metricValues).thresholds v →
        (valueStats colorMetric metricValues).vals ≠ [] →
        colorFor colorMetric ScaleMode.quantile (valueStats colorMetric metricValues)
          ls (some v) ≠ whiteBlue 0) := by
  constructor
  · intro colorMetric mode vs ls
    by_cases hcm : colorMetric = "" <;> simp [colorFor, hcm]
  · intro colorMetric metricValues ls v hcm hbucket hne
    obtain ⟨hpal, hlen⟩ := valueStats_shape colorMetric metricValues hcm hne
    have hle : bucketIndex (valueStats colorMetric metricValues).thresholds v ≤ 4 := by
      rw [← hlen]
      exact bucketIndex_le_length _ v
    have hcolor : colorFor colorMetric ScaleMode.quantile
        (valueStats colorMetric metricValues) ls (some v)
        = (valueStats colorMetric metricValues).palette.getD
            (bucketIndex (valueStats colorMetric metricValues).thresholds v)
            (whiteBlue 0) := by
      simp [colorFor, hcm, hne]
    rw [hcolor, hpal]
    set n := bucketIndex (valueStats colorMetric metricValues).thresholds v with hn
    interval_cases n <;>
      norm_num +decide [whiteBluePalette, whiteBlue, jsRound, jsFloorQ,
        List.range, List.range.loop]

/-- C4: from the empty selection, selecting X then Y fills slots A and B in
order; a third selection evicts the slot with the earlier timestamp and
stamps it with the current time; re-selecting an occupant is a no-op;
`clear` always empties both slots; `swap` exchanges the occupants. -/
theorem selection_claim (x y z : String) (t1 t2 t3 : Int)
    (hx : x ≠ "") (hy : y ≠ "") (hz : z ≠ "")
    (hux : jsUpper x = x) (huy : jsUpper y = y) (huz : jsUpper z = z)
    (hxy : x ≠ y) (hzx : z ≠ x) (hzy : z ≠ y) :
    setSelection (setSelection selInit x t1) y t2 = ⟨some x, some y, t1, t2⟩
    ∧ (t1 ≤ t2 →
        setSelection (setSelection (setSelection selInit x t1) y t2) z t3
          = ⟨some z, some y, t3, t2⟩)
    ∧ (t2 < t1 →
        setSelection (setSelection (setSelection selInit x t1) y t2) z t3
          = ⟨some x, some z, t1, t3⟩)
    ∧ setSelection (setSelection (setSelection selInit x t1) y t2) x t3
        = setSelection (setSelection selInit x t1) y t2
    ∧ setSelection (setSelection (setSelection selInit x t1) y t2) y t3
        = setSelection (setSelection selInit x t1) y t2
    ∧ (∀ s : SelState, clearSel s = ⟨none, none, s.lastA, s.lastB⟩)
    ∧ (∀ s : SelState, swapSel s = ⟨s.codeB, s.codeA, s.lastA, s.lastB⟩) := by
  have hs1 : setSelection selInit x t1 = ⟨some x, none, t1, 0⟩ := by
    simp [setSelection, selInit, hx, hux, isFalsyCode]
  have hs2 : setSelection (setSelection selInit x t1) y t2 = ⟨some x, some y, t1, t2⟩ := by
    rw [hs1]
    simp [setSelection, huy, hy, isFalsyCode, hx, hxy]
  rw [hs2]
  have hxz : x ≠ z := fun h => hzx h.symm
  have hyz : y ≠ z := fun h => hzy h.symm
  refine ⟨rfl, ?_, ?_, ?_, ?_, fun s => rfl, fun s => rfl⟩
  · intro ht
    simp [setSelection, huz, hz, isFalsyCode, hx, hy, hxz, hyz, ht]
  · intro ht
    have ht' : ¬ (t1 ≤ t2) := not_le.mpr ht
    simp [setSelection, huz, hz, isFalsyCode, hx, hy, hxz, hyz, ht']
  · simp [setSelection, hux, hx]
  · simp [setSelection, huy, hy]

/-- C4 witness: selecting USA at time 1, FRA at time 2, then DEU at time 3
evicts USA (the staler slot A) and stamps slot A with time 3. -/
theorem selection_claim_witness :
    setSelection (setSelection (setSelection selInit "USA" 1) "FRA" 2) "DEU" 3
      = ⟨some "DEU", some "FRA", 3, 2⟩ :=
  (selection_claim "USA" "FRA" "DEU" 1 2 3 (by decide) (by decide) (by decide)
    (by decide) (by decide) (by decide) (by decide) (by decide)
    (by decide)).2.1 (by decide)

theorem clampNumber_mem (v lo hi : ℚ) (h : lo ≤ hi) :
    lo ≤ clampNumber v lo hi ∧ clampNumber v lo hi ≤ hi := by
  unfold clampNumber
  exact ⟨le_min_iff.mpr ⟨le_max_right v lo, h⟩, min_le_right _ _⟩

theorem clampNumber_collapse (v m : ℚ) : clampNumber v m m = m := by
  unfold clampNumber
  exact min_eq_right (le_max_right v m)

theorem clampAxisValue_small (z : ℚ) (cur : Option ℚ) (minC maxC vp cs : ℚ)
    (h : cs * z ≤ vp) :
    clampAxisValue z cur minC maxC vp cs = vp / 2 - z * ((minC + maxC) / 2) := by
  simp only [clampAxisValue]
  rw [if_pos h]

theorem clampAxisValue_covering (z : ℚ) (cur : Option ℚ) (minC maxC vp cs : ℚ)
    (h : vp < cs * z) (hr : vp - z * maxC ≤ -(z * minC)) :
    vp - z * maxC ≤ clampAxisValue z cur minC maxC vp cs
    ∧ clampAxisValue z cur minC maxC vp cs ≤ -(z * minC) := by
  simp only [clampAxisValue]
  rw [if_neg (not_le.mpr h)]
  rw [if_neg (not_lt.mpr hr), if_neg (not_lt.mpr hr)]
  cases cur with
  | none => exact clampNumber_mem _ _ _ hr
  | some c => exact clampNumber_mem c _ _ hr

theorem clampAxisValue_inverted (z : ℚ) (cur : Option ℚ) (minC maxC vp cs : ℚ)
    (h : vp < cs * z) (hr : -(z * minC) < vp - z * maxC) :
    clampAxisValue z cur minC maxC vp cs
      = ((vp - z * maxC) + (-(z * minC))) / 2 := by
  simp only [clampAxisValue]
  rw [if_neg (not_le.mpr h)]
  rw [if_pos hr, if_pos hr]
  cases cur with
  | none => rw [clampNumber_collapse]
  | some c => rw [clampNumber_collapse]

/-- C5: the clamper's zoom always lands in [1, 8]; on an axis whose zoomed
content fits the viewport the output centers the content exactly, ignoring
the requested offset; on an axis whose content exceeds the viewport the
output lies in the covering translation range
`[viewport - zoom*maxCoord, -zoom*minCoord]`, an inverted range collapsing
to its midpoint. -/
theorem constrainDragPosition_claim (zr : ℚ) (b : DragBounds) (mapW mapH : ℚ)
    (p : DragPosition) :
    (1 ≤ (constrainDragPosition zr b mapW mapH p).zoom
      ∧ (constrainDragPosition zr b mapW mapH p).zoom ≤ 8)
    ∧ (b.width * (constrainDragPosition zr b mapW mapH p).zoom ≤ mapW →
        (constrainDragPosition zr b mapW mapH p).x
          = mapW / 2 - (constrainDragPosition zr b mapW mapH p).zoom
              * ((b.minX + b.maxX) / 2))
    ∧ (mapW < b.width * (constrainDragPosition zr b mapW mapH p).zoom →
        mapW - (constrainDragPosition zr b mapW mapH p).zoom * b.maxX
            ≤ -((constrainDragPosition zr b mapW mapH p).zoom * b.minX) →
        mapW - (constrainDragPosition zr b mapW mapH p).zoom * b.maxX
            ≤ (constrainDragPosition zr b mapW mapH p).x
          ∧ (constrainDragPosition zr b mapW mapH p).x
            ≤ -((constrainDragPosition zr b mapW mapH p).zoom * b.minX))
    ∧ (mapW < b.width * (constrainDragPosition zr b mapW mapH p).zoom →
        -((constrainDragPosition zr b mapW mapH p).zoom * b.minX)
            < mapW - (constrainDragPosition zr b mapW mapH p).zoom * b.maxX →
        (constrainDragPosition zr b mapW mapH p).x
          = ((mapW - (constrainDragPosition zr b mapW mapH p).zoom * b.maxX)
              + (-((constrainDragPosition zr b mapW mapH p).zoom * b.minX))) / 2)
    ∧ (b.height * (constrainDragPosition zr b mapW mapH p).zoom ≤ mapH →
        (constrainDragPosition zr b mapW mapH p).y
          = mapH / 2 - (constrainDragPosition zr b mapW mapH p).zoom
              * ((b.minY + b.maxY) / 2))
    ∧ (mapH < b.height * (constrainDragPosition zr b mapW mapH p).zoom →
        mapH - (constrainDragPosition zr b mapW mapH p).zoom * b.maxY
            ≤ -((constrainDragPosition zr b mapW mapH p).zoom * b.minY) →
        mapH - (constrainDragPosition zr b mapW mapH p).zoom * b.maxY
            ≤ (constrainDragPosition zr b mapW mapH p).y
          ∧ (constrainDragPosition zr b mapW mapH p).y
            ≤ -((constrainDragPosition zr b mapW mapH p).zoom * b.minY))
    ∧ (mapH < b.height * (constrainDragPosition zr b mapW mapH p).zoom →
        -((constrainDragPosition zr b mapW mapH p).zoom * b.minY)
            < mapH - (constrainDragPosition zr b mapW mapH p).zoom * b.maxY →
        (constrainDragPosition zr b mapW mapH p).y
          = ((mapH - (constrainDragPosition zr b mapW mapH p).zoom * b.maxY)
              + (-((constrainDragPosition zr b mapW mapH p).zoom * b.minY))) / 2) := by
  have hzoom : (constrainDragPosition zr b mapW mapH p).zoom
      = max 1 (min (p.zoom.getD zr) 8) := rfl
  have hx : (constrainDragPosition zr b mapW mapH p).x
      = clampAxisValue (max 1 (min (p.zoom.getD zr) 8)) p.x b.minX b.maxX mapW b.width :=
    rfl
  have hy : (constrainDragPosition zr b mapW mapH p).y
      = clampAxisValue (max 1 (min (p.zoom.getD zr) 8)) p.y b.minY b.maxY mapH b.height :=
    rfl
  refine ⟨⟨le_max_left 1 _, max_le (by norm_num) (min_le_right _ 8)⟩, ?_, ?_, ?_, ?_, ?_, ?_⟩
  · intro h
    rw [hzoom] at h ⊢
    rw [hx]
    exact clampAxisValue_small _ p.x _ _ _ _ h
  · intro h hr
    rw [hzoom] at h hr ⊢
    rw [hx]
    exact clampAxisValue_covering _ p.x _ _ _ _ h hr
  · intro h hr
    rw [hzoom] at h hr ⊢
    rw [hx]
    exact clampAxisValue_inverted _ p.x _ _ _ _ h hr
  · intro h
    rw [hzoom] at h ⊢
    rw [hy]
    exact clampAxisValue_small _ p.y _ _ _ _ h
  · intro h hr
    rw [hzoom] at h hr ⊢
    rw [hy]
    exact clampAxisValue_covering _ p.y _ _ _ _ h hr
  · intro h hr
    rw [hzoom] at h hr ⊢
    rw [hy]
    exact clampAxisValue_inverted _ p.y _ _ _ _ h hr

theorem jsCharUpper_idem (c : Char) : jsCharUpper (jsCharUpper c) = jsCharUpper c := by
  by_cases h : 97 ≤ c.toNat ∧ c.toNat ≤ 122
  · have hc : jsCharUpper c = Char.ofNat (c.toNat - 32) := by
      unfold jsCharUpper
      rw [if_pos h]
    rw [hc]
    have key : (Char.ofNat (c.toNat - 32)).toNat = c.toNat - 32 := by
      have h1 := h.1
      have h2 := h.2
      set n := c.toNat with hn
      interval_cases n <;> decide
    unfold jsCharUpper
    rw [key]
    rw [if_neg (by omega)]
  · have hc : jsCharUpper c = c := by
      unfold jsCharUpper
      rw [if_neg h]
    rw [hc, hc]

theorem jsUpper_idem (s : String) : jsUpper (jsUpper s) = jsUpper s := by
  show String.mk ((s.data.map jsCharUpper).map jsCharUpper) = String.mk (s.data.map jsCharUpper)
  rw [List.map_map]
  congr 1
  apply List.map_congr_left
  intro c _
  exact jsCharUpper_idem c

/-- C9 (as stated, refuted): a property bag whose `ISO_A3` entry is present
as the empty string — present and distinct from the sentinel `"-99"` — makes
`getIso3` return null, not the upper-cased entry, because the code's `!iso`
truthiness test also rejects the empty string. -/
theorem getIso3_empty_cex :
    isoCandidate (some { ISO_A3 := some "" }) = some ""
    ∧ ("" : String) ≠ "-99"
    ∧ getIso3 (some { ISO_A3 := some "" }) = none
    ∧ getIso3 (some { ISO_A3 := some "" }) ≠ some (jsUpper "") := by
  exact ⟨rfl, by decide, rfl, by decide⟩

/-- C9 (amended): `getIso3` resolves the first present key variant; a
missing candidate, the empty string, or the sentinel `"-99"` yields null,
and any other candidate is returned upper-cased.  (Totality holds by
construction: the embedding is a total function.) -/
theorem getIso3_claim (props : Option GeoProps) :
    (isoCandidate props = none → getIso3 props = none)
    ∧ (∀ s, isoCandidate props = some s → (s = "" ∨ s = "-99") → getIso3 props = none)
    ∧ (∀ s, isoCandidate props = some s → s ≠ "" → s ≠ "-99" →
        getIso3 props = some (jsUpper s)) := by
  refine ⟨?_, ?_, ?_⟩
  · intro h
    unfold getIso3
    rw [h]
  · intro s h hs
    unfold getIso3
    rw [h]
    simp only [if_pos hs]
  · intro s h hs1 hs2
    unfold getIso3
    rw [h]
    simp only []
    rw [if_neg (by rintro (hh | hh); exacts [hs1 hh, hs2 hh])]

/-- C10: the ISO-2 extractor returns null or an upper-case string of
exactly two characters; a present value whose upper-cased form is not
exactly two characters long yields null like the absent and sentinel
cases. -/
theorem getIso2_shape (props : Option GeoProps) :
    getIso2 props = none
    ∨ ∃ s, getIso2 props = some s ∧ s.length = 2 ∧ jsUpper s = s := by
  unfold getIso2
  cases iso2Candidate props with
  | none => exact Or.inl rfl
  | some s =>
    by_cases h1 : s = "" ∨ s = "-99"
    · left
      simp only [if_pos h1]
    · by_cases h2 : (jsUpper s).length = 2
      · right
        refine ⟨jsUpper s, ?_, h2, jsUpper_idem s⟩
        simp only [if_neg h1]
        rw [if_pos h2]
      · left
        simp only [if_neg h1]
        rw [if_neg h2]

end CC
